import Mathlib

/-!
Shallow embedding of the zkLogin authenticator subsystem of the
`sui-rust-sdk` repository (file `src/types/crypto/zklogin.rs`), together
with theorems settling the specification claims about it.

Modelling conventions:
* Rust byte slices and `Vec<u8>` are `List Nat` with every element `< 256`.
* Rust `String` is its UTF-8 byte sequence, a `List Nat` satisfying
  `validUtf8`.
* Machine integers are `Nat` with explicit bounds (`< 2 ^ 64` for `u64`);
  the one `as u8` cast in the source is an explicit `% 256`.
* Fallible Rust functions return `ParseResult`; the two decoders that
  contain an unchecked slice index additionally have a `panicked` outcome
  (`DecodeResult`) modelling the Rust panic on an out-of-bounds index.
-/

namespace Sui

set_option maxRecDepth 20000

/-- Result of a fallible parse that cannot abort. -/
inductive ParseResult (α : Type) where
  | ok (a : α)
  | err (msg : String)
deriving DecidableEq

/-- Outcome of a Rust-style decoder: success, a structured error, or a
panic caused by an unchecked slice index. -/
inductive DecodeResult (α : Type) where
  | ok (a : α)
  | err (msg : String)
  | panicked
deriving DecidableEq

/-- True exactly on the structured-error outcome (a panic is not a
structured error). -/
def DecodeResult.isErr {α : Type} : DecodeResult α → Bool
  | .err _ => true
  | _ => false

/-- True exactly on the error outcome. -/
def ParseResult.isErr {α : Type} : ParseResult α → Bool
  | .err _ => true
  | _ => false

/-- Value of a little-endian digit list in the given base. -/
def ofDigitsLE (base : Nat) (l : List Nat) : Nat :=
  l.foldr (fun d a => d + base * a) 0

/-- Value of a big-endian digit list in the given base. -/
def ofDigitsBE (base : Nat) (l : List Nat) : Nat :=
  l.foldl (fun a d => a * base + d) 0

/-- Little-endian digits of `n` in the given base, least significant first,
no most-significant zeros; the fuel argument makes the recursion
structural, any fuel `≥ n` gives the digits of `n`. -/
def toDigitsLEAux (base : Nat) : Nat → Nat → List Nat
  | 0, _ => []
  | fuel + 1, n => if n = 0 then [] else n % base :: toDigitsLEAux base fuel (n / base)

/-- Little-endian digits of `n` in the given base. -/
def toDigitsLE (base n : Nat) : List Nat := toDigitsLEAux base n n

/-- Fixed-width little-endian digits of `n` in the given base. -/
def natToLE (base : Nat) : Nat → Nat → List Nat
  | 0, _ => []
  | width + 1, n => n % base :: natToLE base width (n / base)

/-- Fixed-width big-endian digits of `n` in the given base. -/
def natToBE (base width n : Nat) : List Nat := (natToLE base width n).reverse

/-- Value of a big-endian byte string. -/
def beToNat (l : List Nat) : Nat := ofDigitsBE 256 l

/-- Canonical big-endian decimal digits of `n`: no leading zero digit,
except that zero is the single digit `0`. -/
def toDecimalDigits (n : Nat) : List Nat :=
  if n = 0 then [0] else (toDigitsLE 10 n).reverse

/-- ASCII bytes of the canonical decimal rendering of `n`. -/
def decimalBytes (n : Nat) : List Nat :=
  (toDecimalDigits n).map (fun d => d + 48)

/-- True when the byte is an ASCII decimal digit. -/
def isDigitByte (b : Nat) : Bool := 48 ≤ b && b ≤ 57

/-- Modelled from the spec: the external base-10 reader used by
`U256::from_str_radix(s, 10)` (the `u256` module and the `bnum` crate are
not among the given sources) — accepts exactly a non-empty sequence of
ASCII decimal digits and returns its value. -/
def parseDecimalBytes (l : List Nat) : Option Nat :=
  if !l.isEmpty && l.all isDigitByte then
    some (ofDigitsBE 10 (l.map (fun b => b - 48)))
  else none

/-- 32 raw bytes, big-endian unsigned integer (source struct
`AddressSeed([u8; 32])`). -/
structure AddressSeed where
  bytes : List Nat
deriving DecidableEq

/-- Well-formedness of the embedding: exactly 32 bytes, each `< 256`. -/
def AddressSeed.wf (s : AddressSeed) : Bool :=
  s.bytes.length == 32 && s.bytes.all (fun b => b < 256)

/-- Translation of `AddressSeed::unpadded`: drop leading zero bytes; if
everything was zero return the slice `[31..]` of the original buffer. -/
def AddressSeed.unpadded (s : AddressSeed) : List Nat :=
  if (s.bytes.dropWhile (fun b => b == 0)).isEmpty then s.bytes.drop 31
  else s.bytes.dropWhile (fun b => b == 0)

/-- Translation of `AddressSeed::padded`: the full buffer. -/
def AddressSeed.padded (s : AddressSeed) : List Nat := s.bytes

/-- Modelled from the spec: the `Display` impl renders the stored 256-bit
big-endian value in canonical base 10 via the external
`U256::to_str_radix(10)` (not among the given sources). -/
def AddressSeed.to_decimal_string (s : AddressSeed) : List Nat :=
  decimalBytes (beToNat s.bytes)

/-- Modelled from the spec: the `FromStr` impl parses an unsigned base-10
integer via the external `U256::from_str_radix(s, 10)` (not among the
given sources), failing on anything that is not a non-empty digit string
or denotes a value of 256 bits or more, and canonicalises the value to the
32-byte big-endian buffer (`to_be`). -/
def AddressSeed.from_decimal_string (l : List Nat) : ParseResult AddressSeed :=
  match parseDecimalBytes l with
  | none => .err "unable to parse radix10 encoded value"
  | some n =>
    if n < 2 ^ 256 then .ok ⟨natToBE 256 32 n⟩
    else .err "unable to parse radix10 encoded value: overflow"

/-- True when the byte is a valid UTF-8 continuation byte. -/
def utf8ContOk (b : Nat) : Bool := 128 ≤ b && b ≤ 191

/-- Standard UTF-8 validity of a byte sequence (the check performed by
`std::str::from_utf8` and by string deserialization), including the
overlong-form and surrogate exclusions. -/
def validUtf8 : List Nat → Bool
  | [] => true
  | b :: l =>
    if b ≤ 127 then validUtf8 l
    else
      match l with
      | [] => false
      | c :: l2 =>
        if 194 ≤ b && b ≤ 223 then utf8ContOk c && validUtf8 l2
        else
          match l2 with
          | [] => false
          | d :: l3 =>
            if b = 224 then (160 ≤ c && c ≤ 191) && utf8ContOk d && validUtf8 l3
            else if (225 ≤ b && b ≤ 236) || b = 238 || b = 239 then
              utf8ContOk c && utf8ContOk d && validUtf8 l3
            else if b = 237 then (128 ≤ c && c ≤ 159) && utf8ContOk d && validUtf8 l3
            else
              match l3 with
              | [] => false
              | e :: l4 =>
                if b = 240 then
                  (144 ≤ c && c ≤ 191) && utf8ContOk d && utf8ContOk e && validUtf8 l4
                else if 241 ≤ b && b ≤ 243 then
                  utf8ContOk c && utf8ContOk d && utf8ContOk e && validUtf8 l4
                else if b = 244 then
                  (128 ≤ c && c ≤ 143) && utf8ContOk d && utf8ContOk e && validUtf8 l4
                else false

/-- ULEB128 encoding with fuel for structural recursion; any fuel `> n`
encodes `n`. -/
def ulebAux : Nat → Nat → List Nat
  | 0, _ => []
  | fuel + 1, n => if n < 128 then [n] else (n % 128 + 128) :: ulebAux fuel (n / 128)

/-- ULEB128 encoding of `n`, as used by BCS for lengths. -/
def ulebEncode (n : Nat) : List Nat := ulebAux (n + 1) n

/-- ULEB128 decoding: the value and the remaining bytes. -/
def ulebDecode : List Nat → Option (Nat × List Nat)
  | [] => none
  | b :: rest =>
    if b < 128 then some (b, rest)
    else
      match ulebDecode rest with
      | some (m, r) => some (b - 128 + 128 * m, r)
      | none => none

/-- Reads exactly `k` bytes from the input, failing on short input. -/
def readN (k : Nat) (l : List Nat) : Option (List Nat × List Nat) :=
  if k ≤ l.length then some (l.take k, l.drop k) else none

/-- BCS encoding of a byte string or UTF-8 string: ULEB length then bytes. -/
def bcsString (s : List Nat) : List Nat := ulebEncode s.length ++ s

/-- BCS decoding of a UTF-8 string: length, bytes, UTF-8 check. -/
def pString (l : List Nat) : Option (List Nat × List Nat) :=
  match ulebDecode l with
  | some (n, r) =>
    match readN n r with
    | some (s, r2) => if validUtf8 s then some (s, r2) else none
    | none => none
  | none => none

/-- Concatenation of the encodings of the elements of a list. -/
def encList {α : Type} (enc : α → List Nat) : List α → List Nat
  | [] => []
  | x :: xs => enc x ++ encList enc xs

/-- BCS encoding of a sequence: ULEB element count then the elements. -/
def bcsVec {α : Type} (enc : α → List Nat) (l : List α) : List Nat :=
  ulebEncode l.length ++ encList enc l

/-- Runs a decoder a fixed number of times, collecting the results. -/
def pCount {α : Type} (p : List Nat → Option (α × List Nat)) :
    Nat → List Nat → Option (List α × List Nat)
  | 0, l => some ([], l)
  | k + 1, l =>
    match p l with
    | some (x, r) =>
      match pCount p k r with
      | some (xs, r2) => some (x :: xs, r2)
      | none => none
    | none => none

/-- BCS decoding of a sequence. -/
def pVec {α : Type} (p : List Nat → Option (α × List Nat)) (l : List Nat) :
    Option (List α × List Nat) :=
  match ulebDecode l with
  | some (n, r) => pCount p n r
  | none => none

/-- BCS decoding of a single byte. -/
def pU8 : List Nat → Option (Nat × List Nat)
  | [] => none
  | b :: r => some (b, r)

/-- BCS encoding of a `u64`: 8 little-endian bytes. -/
def bcsU64 (n : Nat) : List Nat := natToLE 256 8 n

/-- BCS decoding of a `u64`. -/
def pU64 (l : List Nat) : Option (Nat × List Nat) :=
  match readN 8 l with
  | some (s, r) => some (ofDigitsLE 256 s, r)
  | none => none

/-- Source struct `Claim { value: String, index_mod_4: u8 }`. -/
structure Claim where
  value : List Nat
  index_mod_4 : Nat
deriving DecidableEq

/-- Well-formedness: `value` is a UTF-8 string of bytes, `index_mod_4` a
`u8`. -/
def Claim.wf (c : Claim) : Bool :=
  c.value.all (fun b => b < 256) && validUtf8 c.value && c.index_mod_4 < 256

/-- BCS encoding of `Claim`, derived field order. -/
def bcsClaim (c : Claim) : List Nat := bcsString c.value ++ [c.index_mod_4]

/-- BCS decoding of `Claim`. -/
def pClaim (l : List Nat) : Option (Claim × List Nat) :=
  match pString l with
  | some (v, r) =>
    match pU8 r with
    | some (i, r2) => some (⟨v, i⟩, r2)
    | none => none
  | none => none

/-- Source struct `ZkLoginProof { a: CircomG1, b: CircomG2, c: CircomG1 }`
where `CircomG1 = Vec<String>` and `CircomG2 = Vec<Vec<String>>`. -/
structure ZkLoginProof where
  a : List (List Nat)
  b : List (List (List Nat))
  c : List (List Nat)
deriving DecidableEq

/-- Well-formedness: every coordinate is a UTF-8 string of bytes. -/
def ZkLoginProof.wf (p : ZkLoginProof) : Bool :=
  p.a.all (fun s => s.all (fun b => b < 256) && validUtf8 s) &&
  p.b.all (fun v => v.all (fun s => s.all (fun b => b < 256) && validUtf8 s)) &&
  p.c.all (fun s => s.all (fun b => b < 256) && validUtf8 s)

/-- BCS encoding of `ZkLoginProof`, derived field order. -/
def bcsProof (p : ZkLoginProof) : List Nat :=
  bcsVec bcsString p.a ++ bcsVec (bcsVec bcsString) p.b ++ bcsVec bcsString p.c

/-- BCS decoding of `ZkLoginProof`. -/
def pProof (l : List Nat) : Option (ZkLoginProof × List Nat) :=
  match pVec pString l with
  | some (a, r) =>
    match pVec (pVec pString) r with
    | some (b, r2) =>
      match pVec pString r2 with
      | some (c, r3) => some (⟨a, b, c⟩, r3)
      | none => none
    | none => none
  | none => none

/-- BCS encoding of `AddressSeed`: the custom `Serialize` impl routes both
paths through `DisplayFromStr`, so the BCS form is the BCS string of the
canonical decimal rendering. -/
def bcsAddressSeed (s : AddressSeed) : List Nat :=
  bcsString s.to_decimal_string

/-- BCS decoding of `AddressSeed`: a BCS string parsed via `FromStr`. -/
def pAddressSeed (l : List Nat) : Option (AddressSeed × List Nat) :=
  match pString l with
  | some (str, r) =>
    match AddressSeed.from_decimal_string str with
    | .ok a => some (a, r)
    | .err _ => none
  | none => none

/-- Source struct `ZkLoginInputs`. -/
structure ZkLoginInputs where
  proof_points : ZkLoginProof
  iss_base64_details : Claim
  header_base64 : List Nat
  address_seed : AddressSeed
deriving DecidableEq

/-- Well-formedness of the embedding of `ZkLoginInputs`. -/
def ZkLoginInputs.wf (i : ZkLoginInputs) : Bool :=
  i.proof_points.wf && i.iss_base64_details.wf &&
  (i.header_base64.all (fun b => b < 256) && validUtf8 i.header_base64) &&
  i.address_seed.wf

/-- BCS encoding of `ZkLoginInputs`, derived field order. -/
def bcsInputs (i : ZkLoginInputs) : List Nat :=
  bcsProof i.proof_points ++ bcsClaim i.iss_base64_details ++
  bcsString i.header_base64 ++ bcsAddressSeed i.address_seed

/-- BCS decoding of `ZkLoginInputs`. -/
def pInputs (l : List Nat) : Option (ZkLoginInputs × List Nat) :=
  match pProof l with
  | some (p, r) =>
    match pClaim r with
    | some (c, r2) =>
      match pString r2 with
      | some (h, r3) =>
        match pAddressSeed r3 with
        | some (s, r4) => some (⟨p, c, h, s⟩, r4)
        | none => none
      | none => none
    | none => none
  | none => none

/-- Modelled from the spec: `SimpleSignature` (its source file is not among
the given sources) — a single-key signature variant holding signature
bytes and public-key bytes, scheme-tagged consistently, with the
fixed lengths implied by the scheme sub-tag. -/
inductive SimpleSignature where
  | ed25519 (signature : List Nat) (public_key : List Nat)
  | secp256k1 (signature : List Nat) (public_key : List Nat)
  | secp256r1 (signature : List Nat) (public_key : List Nat)
deriving DecidableEq

/-- Well-formedness: the fixed per-scheme lengths and byte bounds. -/
def SimpleSignature.wf : SimpleSignature → Bool
  | .ed25519 s p =>
    s.length == 64 && p.length == 32 && s.all (fun b => b < 256) && p.all (fun b => b < 256)
  | .secp256k1 s p =>
    s.length == 64 && p.length == 33 && s.all (fun b => b < 256) && p.all (fun b => b < 256)
  | .secp256r1 s p =>
    s.length == 64 && p.length == 33 && s.all (fun b => b < 256) && p.all (fun b => b < 256)

/-- Modelled from the spec: compact body of `SimpleSignature` — the scheme
sub-tag byte, then the signature bytes, then the public-key bytes. -/
def bcsSimpleSignature : SimpleSignature → List Nat
  | .ed25519 s p => 0 :: (s ++ p)
  | .secp256k1 s p => 1 :: (s ++ p)
  | .secp256r1 s p => 2 :: (s ++ p)

/-- Modelled from the spec: compact decoding of `SimpleSignature` — read
the scheme sub-tag byte, then the fixed-length signature and public-key
bytes it implies. -/
def pSimpleSignature (l : List Nat) : Option (SimpleSignature × List Nat) :=
  match l with
  | [] => none
  | t :: r =>
    if t = 0 then
      match readN 64 r with
      | some (s, r2) =>
        match readN 32 r2 with
        | some (p, r3) => some (.ed25519 s p, r3)
        | none => none
      | none => none
    else if t = 1 then
      match readN 64 r with
      | some (s, r2) =>
        match readN 33 r2 with
        | some (p, r3) => some (.secp256k1 s p, r3)
        | none => none
      | none => none
    else if t = 2 then
      match readN 64 r with
      | some (s, r2) =>
        match readN 33 r2 with
        | some (p, r3) => some (.secp256r1 s p, r3)
        | none => none
      | none => none
    else none

/-- Modelled from the spec: the one-byte scheme-tag registry
(`SignatureScheme`; its source file is not among the given sources) — a
closed set of schemes, each with one stable byte. -/
inductive SignatureScheme where
  | ed25519
  | secp256k1
  | secp256r1
  | multisig
  | bls12381
  | zkLogin
deriving DecidableEq

/-- Modelled from the spec: the scheme byte of each tag (`as u8`). -/
def SignatureScheme.toByte : SignatureScheme → Nat
  | .ed25519 => 0
  | .secp256k1 => 1
  | .secp256r1 => 2
  | .multisig => 3
  | .bls12381 => 4
  | .zkLogin => 5

/-- Modelled from the spec: `SignatureScheme::from_byte` — bijective over
the closed set, any other byte is an `UnknownScheme` error. -/
def SignatureScheme.from_byte (b : Nat) : ParseResult SignatureScheme :=
  if b = 0 then .ok .ed25519
  else if b = 1 then .ok .secp256k1
  else if b = 2 then .ok .secp256r1
  else if b = 3 then .ok .multisig
  else if b = 4 then .ok .bls12381
  else if b = 5 then .ok .zkLogin
  else .err "unknown scheme"

/-- Source struct `ZkLoginAuthenticator`. -/
structure ZkLoginAuthenticator where
  inputs : ZkLoginInputs
  max_epoch : Nat
  signature : SimpleSignature
deriving DecidableEq

/-- Well-formedness of the embedding of `ZkLoginAuthenticator`
(`max_epoch` is a `u64`). -/
def ZkLoginAuthenticator.wf (a : ZkLoginAuthenticator) : Bool :=
  a.inputs.wf && a.max_epoch < 2 ^ 64 && a.signature.wf

/-- BCS encoding of the `AuthenticatorRef { inputs, max_epoch, signature }`
body, derived field order. -/
def bcsAuthBody (a : ZkLoginAuthenticator) : List Nat :=
  bcsInputs a.inputs ++ bcsU64 a.max_epoch ++ bcsSimpleSignature a.signature

/-- BCS decoding of the `Authenticator` body. -/
def pAuthBody (l : List Nat) : Option (ZkLoginAuthenticator × List Nat) :=
  match pInputs l with
  | some (i, r) =>
    match pU64 r with
    | some (e, r2) =>
      match pSimpleSignature r2 with
      | some (s, r3) => some (⟨i, e, s⟩, r3)
      | none => none
    | none => none
  | none => none

/-- Translation of the non-human-readable `Serialize` impl of
`ZkLoginAuthenticator`: the buffer pushed starts with
`SignatureScheme::ZkLogin as u8` and continues with the BCS body. -/
def ZkLoginAuthenticator.serialize_compact (a : ZkLoginAuthenticator) : List Nat :=
  SignatureScheme.zkLogin.toByte :: bcsAuthBody a

/-- Translation of `ZkLoginAuthenticator::from_serialized_bytes`. The
source indexes `bytes[0]` without a bounds check, which panics on an empty
input — modelled by the `panicked` outcome. `bcs::from_bytes` requires the
body to consume the whole remaining input. -/
def ZkLoginAuthenticator.from_serialized_bytes (bytes : List Nat) :
    DecodeResult ZkLoginAuthenticator :=
  match bytes with
  | [] => .panicked
  | b :: rest =>
    match SignatureScheme.from_byte b with
    | .err e => .err e
    | .ok flag =>
      if flag = SignatureScheme.zkLogin then
        match pAuthBody rest with
        | some (a, []) => .ok a
        | some (_, _ :: _) => .err "remaining input"
        | none => .err "bcs deserialization error"
      else .err "invalid zklogin flag"

/-- Source struct `ZkLoginPublicIdentifier { iss: String, address_seed }`. -/
structure ZkLoginPublicIdentifier where
  iss : List Nat
  address_seed : AddressSeed
deriving DecidableEq

/-- Well-formedness of the embedding of `ZkLoginPublicIdentifier`. -/
def ZkLoginPublicIdentifier.wf (v : ZkLoginPublicIdentifier) : Bool :=
  v.iss.all (fun b => b < 256) && validUtf8 v.iss && v.address_seed.wf

/-- Rust range slice `bytes.get(a..b)`: `Some` exactly when
`a ≤ b ≤ len`. -/
def sliceGet (l : List Nat) (a b : Nat) : Option (List Nat) :=
  if a ≤ b ∧ b ≤ l.length then some ((l.drop a).take (b - a)) else none

/-- Rust open-ended slice `bytes.get(a..)`: `Some` exactly when
`a ≤ len`. -/
def sliceFrom (l : List Nat) (a : Nat) : Option (List Nat) :=
  if a ≤ l.length then some (l.drop a) else none

/-- Translation of the non-human-readable `Serialize` impl of
`ZkLoginPublicIdentifier`: the buffer is
`iss_bytes.len() as u8` then the issuer bytes then the 32 seed bytes. -/
def ZkLoginPublicIdentifier.serialize_compact (v : ZkLoginPublicIdentifier) : List Nat :=
  v.iss.length % 256 :: (v.iss ++ v.address_seed.bytes)

/-- Translation of the non-human-readable `Deserialize` impl of
`ZkLoginPublicIdentifier`. The source reads `bytes[0]` without a bounds
check (panic on empty input), then `bytes.get(1..1+iss_len)`, a UTF-8
check, `bytes.get(1+iss_len..)`, and a 32-byte conversion of the rest. -/
def ZkLoginPublicIdentifier.deserialize_compact (bytes : List Nat) :
    DecodeResult ZkLoginPublicIdentifier :=
  match bytes with
  | [] => .panicked
  | b0 :: _ =>
    match sliceGet bytes 1 (1 + b0) with
    | none => .err "invalid zklogin public identifier"
    | some iss_bytes =>
      if validUtf8 iss_bytes then
        match sliceFrom bytes (1 + b0) with
        | none => .err "invalid zklogin public identifier"
        | some seed_bytes =>
          if seed_bytes.length = 32 then
            .ok ⟨iss_bytes, ⟨seed_bytes⟩⟩
          else .err "could not convert slice to array"
      else .err "invalid utf-8"

/-- Human-readable form of `ZkLoginPublicIdentifier`: the `Readable`
struct with `iss` as the string and `address_seed` rendered by its own
(decimal-string) serialization. -/
structure ReadableIdentifier where
  iss : List Nat
  address_seed : List Nat
deriving DecidableEq

/-- Translation of the human-readable `Serialize` impl of
`ZkLoginPublicIdentifier`. -/
def ZkLoginPublicIdentifier.serialize_readable (v : ZkLoginPublicIdentifier) :
    ReadableIdentifier :=
  ⟨v.iss, v.address_seed.to_decimal_string⟩

/-- Translation of the human-readable `Deserialize` impl of
`ZkLoginPublicIdentifier`. -/
def ZkLoginPublicIdentifier.deserialize_readable (r : ReadableIdentifier) :
    ParseResult ZkLoginPublicIdentifier :=
  match AddressSeed.from_decimal_string r.address_seed with
  | .ok s => .ok ⟨r.iss, s⟩
  | .err e => .err e

/-- Human-readable form of `ZkLoginInputs` (derived serialization, with
the `address_seed` field rendered by its own decimal-string
serialization). -/
structure ReadableInputs where
  proof_points : ZkLoginProof
  iss_base64_details : Claim
  header_base64 : List Nat
  address_seed : List Nat
deriving DecidableEq

/-- Human-readable form of `ZkLoginAuthenticator`: the `AuthenticatorRef`
struct serialized structurally. -/
structure ReadableAuthenticator where
  inputs : ReadableInputs
  max_epoch : Nat
  signature : SimpleSignature
deriving DecidableEq

/-- Translation of the human-readable `Serialize` impl of
`ZkLoginAuthenticator`. -/
def ZkLoginAuthenticator.serialize_readable (a : ZkLoginAuthenticator) :
    ReadableAuthenticator :=
  ⟨⟨a.inputs.proof_points, a.inputs.iss_base64_details, a.inputs.header_base64,
    a.inputs.address_seed.to_decimal_string⟩, a.max_epoch, a.signature⟩

/-- Translation of the human-readable `Deserialize` impl of
`ZkLoginAuthenticator`. -/
def ZkLoginAuthenticator.deserialize_readable (r : ReadableAuthenticator) :
    ParseResult ZkLoginAuthenticator :=
  match AddressSeed.from_decimal_string r.inputs.address_seed with
  | .ok s =>
    .ok ⟨⟨r.inputs.proof_points, r.inputs.iss_base64_details, r.inputs.header_base64, s⟩,
      r.max_epoch, r.signature⟩
  | .err e => .err e

/-- Modelled from the spec's words, for comparison only: the form §6 of
the spec asserts for the compact encoding of `ZkLoginInputs`, with the
`address_seed` field as the raw 32-byte big-endian buffer instead of what
the source produces. -/
def bcsInputsRawSeedSpec (i : ZkLoginInputs) : List Nat :=
  bcsProof i.proof_points ++ bcsClaim i.iss_base64_details ++
  bcsString i.header_base64 ++ i.address_seed.padded

theorem ofDigitsLE_cons (b x : Nat) (xs : List Nat) :
    ofDigitsLE b (x :: xs) = x + b * ofDigitsLE b xs := rfl

theorem ofDigitsBE_reverse (b : Nat) (l : List Nat) :
    ofDigitsBE b l.reverse = ofDigitsLE b l := by
  induction l with
  | nil => rfl
  | cons x xs ih =>
    simp only [List.reverse_cons, ofDigitsBE, List.foldl_append, List.foldl_cons,
      List.foldl_nil, ofDigitsLE_cons]
    rw [show List.foldl (fun a d => a * b + d) 0 xs.reverse = ofDigitsLE b xs from ih]
    ring

theorem toDigitsLEAux_zero (b fuel : Nat) : toDigitsLEAux b fuel 0 = [] := by
  cases fuel <;> simp [toDigitsLEAux]

theorem ofDigitsLE_toDigitsLEAux (b : Nat) (hb : 2 ≤ b) :
    ∀ fuel n, n ≤ fuel → ofDigitsLE b (toDigitsLEAux b fuel n) = n := by
  intro fuel
  induction fuel with
  | zero =>
    intro n hn
    have : n = 0 := Nat.le_zero.mp hn
    subst this
    rfl
  | succ f ih =>
    intro n hn
    by_cases h : n = 0
    · subst h; rw [toDigitsLEAux_zero]; rfl
    · have hdiv : n / b < n := Nat.div_lt_self (Nat.pos_of_ne_zero h) hb
      simp only [toDigitsLEAux, if_neg h, ofDigitsLE_cons]
      rw [ih (n / b) (by omega)]
      exact Nat.mod_add_div n b

theorem toDigitsLEAux_lt (b : Nat) (hb : 0 < b) :
    ∀ fuel n d, d ∈ toDigitsLEAux b fuel n → d < b := by
  intro fuel
  induction fuel with
  | zero => intro n d hd; simp [toDigitsLEAux] at hd
  | succ f ih =>
    intro n d hd
    by_cases h : n = 0
    · subst h; simp [toDigitsLEAux] at hd
    · simp only [toDigitsLEAux, if_neg h, List.mem_cons] at hd
      rcases hd with h1 | h2
      · subst h1; exact Nat.mod_lt n hb
      · exact ih (n / b) d h2

theorem toDigitsLEAux_getLast_ne_zero (b : Nat) (hb : 2 ≤ b) :
    ∀ fuel n, n ≠ 0 → n ≤ fuel →
      ∀ d, (toDigitsLEAux b fuel n).getLast? = some d → d ≠ 0 := by
  intro fuel
  induction fuel with
  | zero => intro n hn hle; omega
  | succ f ih =>
    intro n hn hle d hd
    simp only [toDigitsLEAux, if_neg hn] at hd
    by_cases hq : n / b = 0
    · rw [hq, toDigitsLEAux_zero] at hd
      simp only [List.getLast?_singleton, Option.some.injEq] at hd
      have hnb : n < b := by
        by_contra hc
        have := Nat.div_pos (Nat.le_of_not_lt hc) (show 0 < b by omega)
        omega
      rw [Nat.mod_eq_of_lt hnb] at hd
      omega
    · have hq2 : n / b < n := Nat.div_lt_self (Nat.pos_of_ne_zero hn) hb
      have hq3 : n / b ≤ f := by omega
      have htl := ih (n / b) hq hq3 d
      rcases he : toDigitsLEAux b f (n / b) with _ | ⟨y, ys⟩
      · rcases f with _ | f2
        · exact absurd (Nat.le_zero.mp hq3) hq
        · simp only [toDigitsLEAux, if_neg hq] at he
          exact (List.cons_ne_nil _ _ he).elim
      · rw [he, List.getLast?_cons_cons] at hd
        exact htl (by rw [he]; exact hd)

theorem natToLE_length (b : Nat) : ∀ k n, (natToLE b k n).length = k := by
  intro k
  induction k with
  | zero => intro n; rfl
  | succ w ih => intro n; simp [natToLE, ih]

theorem natToLE_lt (b : Nat) (hb : 0 < b) :
    ∀ k n d, d ∈ natToLE b k n → d < b := by
  intro k
  induction k with
  | zero => intro n d hd; simp [natToLE] at hd
  | succ w ih =>
    intro n d hd
    simp only [natToLE, List.mem_cons] at hd
    rcases hd with h1 | h2
    · subst h1; exact Nat.mod_lt n hb
    · exact ih (n / b) d h2

theorem ofDigitsLE_natToLE (b : Nat) (hb : 0 < b) :
    ∀ k n, n < b ^ k → ofDigitsLE b (natToLE b k n) = n := by
  intro k
  induction k with
  | zero =>
    intro n hn
    simp only [pow_zero, Nat.lt_one_iff] at hn
    subst hn; rfl
  | succ w ih =>
    intro n hn
    simp only [natToLE, ofDigitsLE_cons]
    rw [ih (n / b) ?_]
    · exact Nat.mod_add_div n b
    · rw [Nat.div_lt_iff_lt_mul hb]
      calc n < b ^ (w + 1) := hn
        _ = b ^ w * b := by ring

theorem natToLE_ofDigitsLE (b : Nat) :
    ∀ l : List Nat, (∀ d ∈ l, d < b) → natToLE b l.length (ofDigitsLE b l) = l := by
  intro l
  induction l with
  | nil => intro _; rfl
  | cons x xs ih =>
    intro hall
    have hx : x < b := hall x (List.mem_cons_self x xs)
    have hb : 0 < b := by omega
    simp only [List.length_cons, natToLE, ofDigitsLE_cons]
    have h1 : (x + b * ofDigitsLE b xs) % b = x := by
      rw [Nat.add_mul_mod_self_left, Nat.mod_eq_of_lt hx]
    have h2 : (x + b * ofDigitsLE b xs) / b = ofDigitsLE b xs := by
      rw [Nat.add_mul_div_left _ _ hb, Nat.div_eq_of_lt hx, Nat.zero_add]
    rw [h1, h2, ih (fun d hd => hall d (List.mem_cons_of_mem x hd))]

theorem ofDigitsLE_lt (b : Nat) (hb : 0 < b) :
    ∀ l : List Nat, (∀ d ∈ l, d < b) → ofDigitsLE b l < b ^ l.length := by
  intro l
  induction l with
  | nil =>
    intro _
    have h0 : 0 < b := hb
    simp [ofDigitsLE]
  | cons x xs ih =>
    intro hall
    have hx : x < b := hall x (List.mem_cons_self x xs)
    have hxs := ih (fun d hd => hall d (List.mem_cons_of_mem x hd))
    simp only [ofDigitsLE_cons, List.length_cons]
    calc x + b * ofDigitsLE b xs < b + b * ofDigitsLE b xs := by omega
      _ = b * (1 + ofDigitsLE b xs) := by ring
      _ ≤ b * b ^ xs.length := Nat.mul_le_mul_left b (by omega)
      _ = b ^ (xs.length + 1) := by ring

theorem beToNat_natToBE (k n : Nat) (h : n < 256 ^ k) :
    beToNat (natToBE 256 k n) = n := by
  unfold beToNat natToBE
  rw [ofDigitsBE_reverse]
  exact ofDigitsLE_natToLE 256 (by omega) k n h

theorem natToBE_beToNat (l : List Nat) (hb : ∀ d ∈ l, d < 256) :
    natToBE 256 l.length (beToNat l) = l := by
  unfold beToNat natToBE ofDigitsBE
  rw [show List.foldl (fun a d => a * 256 + d) 0 l
        = ofDigitsBE 256 l.reverse.reverse from by rw [List.reverse_reverse]; rfl]
  rw [ofDigitsBE_reverse]
  rw [show l.length = l.reverse.length from (List.length_reverse l).symm]
  rw [natToLE_ofDigitsLE 256 l.reverse (fun d hd => hb d (List.mem_reverse.mp hd))]
  exact List.reverse_reverse l

theorem beToNat_lt (l : List Nat) (hb : ∀ d ∈ l, d < 256) :
    beToNat l < 256 ^ l.length := by
  unfold beToNat
  rw [show l = l.reverse.reverse from (List.reverse_reverse l).symm, ofDigitsBE_reverse,
    List.length_reverse]
  exact ofDigitsLE_lt 256 (by omega) l.reverse (fun d hd => hb d (List.mem_reverse.mp hd))

theorem toDecimalDigits_lt (n : Nat) : ∀ d ∈ toDecimalDigits n, d < 10 := by
  intro d hd
  unfold toDecimalDigits at hd
  by_cases h : n = 0
  · simp [h] at hd; omega
  · rw [if_neg h] at hd
    exact toDigitsLEAux_lt 10 (by omega) n n d (List.mem_reverse.mp hd)

theorem toDecimalDigits_ne_nil (n : Nat) : toDecimalDigits n ≠ [] := by
  unfold toDecimalDigits
  by_cases h : n = 0
  · simp [h]
  · rw [if_neg h]
    intro hc
    rw [List.reverse_eq_nil_iff] at hc
    have := ofDigitsLE_toDigitsLEAux 10 (by omega) n n (Nat.le_refl n)
    rw [show toDigitsLE 10 n = toDigitsLEAux 10 n n from rfl] at hc
    rw [hc] at this
    exact h this.symm

theorem ofDigitsBE_toDecimalDigits (n : Nat) :
    ofDigitsBE 10 (toDecimalDigits n) = n := by
  unfold toDecimalDigits
  by_cases h : n = 0
  · simp [h]; rfl
  · rw [if_neg h, ofDigitsBE_reverse]
    exact ofDigitsLE_toDigitsLEAux 10 (by omega) n n (Nat.le_refl n)

theorem parseDecimalBytes_decimalBytes (n : Nat) :
    parseDecimalBytes (decimalBytes n) = some n := by
  unfold parseDecimalBytes decimalBytes
  have hne : (toDecimalDigits n).map (fun d => d + 48) ≠ [] := by
    simp [toDecimalDigits_ne_nil n]
  have hall : ((toDecimalDigits n).map (fun d => d + 48)).all isDigitByte = true := by
    rw [List.all_eq_true]
    intro b hb
    rw [List.mem_map] at hb
    obtain ⟨d, hd, rfl⟩ := hb
    have := toDecimalDigits_lt n d hd
    simp only [isDigitByte, Bool.and_eq_true, decide_eq_true_eq]
    omega
  rw [if_pos]
  · rw [List.map_map]
    rw [show ((fun b => b - 48) ∘ fun d => d + 48) = id from by funext d; simp]
    rw [List.map_id, ofDigitsBE_toDecimalDigits]
  · simp [hall, List.isEmpty_iff, hne]

theorem seed_decimal_roundtrip (s : AddressSeed) (h : s.wf = true) :
    AddressSeed.from_decimal_string s.to_decimal_string = .ok s := by
  unfold AddressSeed.wf at h
  rw [Bool.and_eq_true, beq_iff_eq, List.all_eq_true] at h
  obtain ⟨hlen, hall⟩ := h
  have hall2 : ∀ d ∈ s.bytes, d < 256 := by
    intro d hd
    have := hall d hd
    simpa using this
  have hlt : beToNat s.bytes < 2 ^ 256 := by
    have := beToNat_lt s.bytes hall2
    rw [hlen] at this
    calc beToNat s.bytes < 256 ^ 32 := this
      _ = 2 ^ 256 := by norm_num
  have hbe : natToBE 256 32 (beToNat s.bytes) = s.bytes := by
    rw [show (32 : Nat) = s.bytes.length from hlen.symm]
    exact natToBE_beToNat s.bytes hall2
  unfold AddressSeed.to_decimal_string AddressSeed.from_decimal_string
  simp only [parseDecimalBytes_decimalBytes, hlt, if_true, hbe]

theorem ulebDecode_ulebAux :
    ∀ fuel n rest, n < fuel → ulebDecode (ulebAux fuel n ++ rest) = some (n, rest) := by
  intro fuel
  induction fuel with
  | zero => intro n rest hn; omega
  | succ f ih =>
    intro n rest hn
    by_cases h : n < 128
    · simp only [ulebAux, if_pos h, List.cons_append, List.nil_append, ulebDecode, if_pos h]
    · have h1 : n / 128 < n := Nat.div_lt_self (by omega) (by omega)
      have harith : n % 128 + 128 - 128 + 128 * (n / 128) = n := by
        have := Nat.mod_add_div n 128
        omega
      simp only [ulebAux, if_neg h, List.cons_append, ulebDecode,
        if_neg (show ¬(n % 128 + 128 < 128) by omega),
        ih (n / 128) rest (by omega : n / 128 < f), harith]

theorem ulebDecode_ulebEncode (n : Nat) (rest : List Nat) :
    ulebDecode (ulebEncode n ++ rest) = some (n, rest) :=
  ulebDecode_ulebAux (n + 1) n rest (Nat.lt_succ_self n)

theorem readN_append (k : Nat) (l rest : List Nat) (h : l.length = k) :
    readN k (l ++ rest) = some (l, rest) := by
  unfold readN
  subst h
  rw [if_pos (by simp)]
  rw [List.take_left, List.drop_left]

theorem pString_bcsString (s rest : List Nat) (h : validUtf8 s = true) :
    pString (bcsString s ++ rest) = some (s, rest) := by
  unfold pString bcsString
  simp only [List.append_assoc, ulebDecode_ulebEncode, readN_append s.length s rest rfl,
    h, if_true]

theorem pCount_encList {α : Type} (p : List Nat → Option (α × List Nat))
    (enc : α → List Nat) :
    ∀ (xs : List α) (rest : List Nat),
      (∀ x ∈ xs, ∀ r, p (enc x ++ r) = some (x, r)) →
      pCount p xs.length (encList enc xs ++ rest) = some (xs, rest) := by
  intro xs
  induction xs with
  | nil => intro rest _; rfl
  | cons x xs ih =>
    intro rest hall
    simp only [List.length_cons, encList, pCount, List.append_assoc,
      hall x (List.mem_cons_self x xs),
      ih rest (fun y hy r => hall y (List.mem_cons_of_mem x hy) r)]

theorem pVec_bcsVec {α : Type} (p : List Nat → Option (α × List Nat))
    (enc : α → List Nat) (xs : List α) (rest : List Nat)
    (h : ∀ x ∈ xs, ∀ r, p (enc x ++ r) = some (x, r)) :
    pVec p (bcsVec enc xs ++ rest) = some (xs, rest) := by
  unfold pVec bcsVec
  rw [List.append_assoc, ulebDecode_ulebEncode]
  exact pCount_encList p enc xs rest h

theorem pU64_bcsU64 (n : Nat) (rest : List Nat) (h : n < 2 ^ 64) :
    pU64 (bcsU64 n ++ rest) = some (n, rest) := by
  unfold pU64 bcsU64
  simp only [readN_append _ _ _ (natToLE_length 256 8 n)]
  simp only [ofDigitsLE_natToLE 256 (by omega) 8 n (by norm_num at h ⊢; omega)]

theorem validUtf8_ascii : ∀ l : List Nat, (∀ b ∈ l, b ≤ 127) → validUtf8 l = true := by
  intro l
  induction l with
  | nil => intro _; rfl
  | cons b bs ih =>
    intro hall
    have hb : b ≤ 127 := hall b (List.mem_cons_self b bs)
    unfold validUtf8
    rw [if_pos hb]
    exact ih (fun x hx => hall x (List.mem_cons_of_mem b hx))
theorem pVec_pString_round (v : List (List Nat)) (r : List Nat)
    (h : ∀ s ∈ v, validUtf8 s = true) :
    pVec pString (bcsVec bcsString v ++ r) = some (v, r) :=
  pVec_bcsVec pString bcsString v r (fun s hs rr => pString_bcsString s rr (h s hs))

theorem pVecVec_pString_round (v : List (List (List Nat))) (r : List Nat)
    (h : ∀ g ∈ v, ∀ s ∈ g, validUtf8 s = true) :
    pVec (pVec pString) (bcsVec (bcsVec bcsString) v ++ r) = some (v, r) :=
  pVec_bcsVec (pVec pString) (bcsVec bcsString) v r
    (fun g hg rr => pVec_pString_round g rr (h g hg))

theorem pClaim_bcsClaim (c : Claim) (rest : List Nat) (h : c.wf = true) :
    pClaim (bcsClaim c ++ rest) = some (c, rest) := by
  unfold Claim.wf at h
  simp only [Bool.and_eq_true] at h
  obtain ⟨⟨_, h2⟩, _⟩ := h
  unfold pClaim bcsClaim
  simp only [List.append_assoc, List.singleton_append,
    pString_bcsString c.value _ h2, pU8]

theorem pProof_bcsProof (p : ZkLoginProof) (rest : List Nat) (h : p.wf = true) :
    pProof (bcsProof p ++ rest) = some (p, rest) := by
  unfold ZkLoginProof.wf at h
  simp only [Bool.and_eq_true, List.all_eq_true] at h
  obtain ⟨⟨ha, hb⟩, hc⟩ := h
  unfold pProof bcsProof
  simp only [List.append_assoc,
    pVec_pString_round p.a _ (fun s hs => (ha s hs).2),
    pVecVec_pString_round p.b _ (fun g hg s hs => ((hb g hg) s hs).2),
    pVec_pString_round p.c _ (fun s hs => (hc s hs).2)]

theorem pAddressSeed_bcsAddressSeed (s : AddressSeed) (rest : List Nat)
    (h : s.wf = true) :
    pAddressSeed (bcsAddressSeed s ++ rest) = some (s, rest) := by
  have hutf : validUtf8 s.to_decimal_string = true := by
    unfold AddressSeed.to_decimal_string
    apply validUtf8_ascii
    intro b hb
    unfold decimalBytes at hb
    rw [List.mem_map] at hb
    obtain ⟨d, hd, rfl⟩ := hb
    have := toDecimalDigits_lt _ d hd
    omega
  unfold pAddressSeed bcsAddressSeed
  simp only [pString_bcsString _ _ hutf, seed_decimal_roundtrip s h]

theorem pSimpleSignature_round (s : SimpleSignature) (rest : List Nat)
    (h : s.wf = true) :
    pSimpleSignature (bcsSimpleSignature s ++ rest) = some (s, rest) := by
  cases s with
  | ed25519 sg pk =>
    unfold SimpleSignature.wf at h
    simp only [Bool.and_eq_true, beq_iff_eq] at h
    obtain ⟨⟨⟨hsg, hpk⟩, _⟩, _⟩ := h
    unfold bcsSimpleSignature pSimpleSignature
    simp only [List.cons_append, List.append_assoc, if_pos rfl, if_true,
      readN_append 64 sg _ hsg, readN_append 32 pk _ hpk]
  | secp256k1 sg pk =>
    unfold SimpleSignature.wf at h
    simp only [Bool.and_eq_true, beq_iff_eq] at h
    obtain ⟨⟨⟨hsg, hpk⟩, _⟩, _⟩ := h
    unfold bcsSimpleSignature pSimpleSignature
    simp only [List.cons_append, List.append_assoc,
      if_neg (by omega : ¬(1 : Nat) = 0), if_pos rfl, if_true,
      readN_append 64 sg _ hsg, readN_append 33 pk _ hpk]
  | secp256r1 sg pk =>
    unfold SimpleSignature.wf at h
    simp only [Bool.and_eq_true, beq_iff_eq] at h
    obtain ⟨⟨⟨hsg, hpk⟩, _⟩, _⟩ := h
    unfold bcsSimpleSignature pSimpleSignature
    simp only [List.cons_append, List.append_assoc,
      if_neg (by omega : ¬(2 : Nat) = 0), if_neg (by omega : ¬(2 : Nat) = 1), if_pos rfl,
      if_true, readN_append 64 sg _ hsg, readN_append 33 pk _ hpk]

theorem pInputs_bcsInputs (i : ZkLoginInputs) (rest : List Nat) (h : i.wf = true) :
    pInputs (bcsInputs i ++ rest) = some (i, rest) := by
  unfold ZkLoginInputs.wf at h
  simp only [Bool.and_eq_true] at h
  obtain ⟨⟨⟨hp, hc⟩, hh⟩, hs⟩ := h
  unfold pInputs bcsInputs
  simp only [List.append_assoc,
    pProof_bcsProof i.proof_points _ hp,
    pClaim_bcsClaim i.iss_base64_details _ hc,
    pString_bcsString i.header_base64 _ hh.2,
    pAddressSeed_bcsAddressSeed i.address_seed _ hs]

theorem pAuthBody_bcsAuthBody (a : ZkLoginAuthenticator) (rest : List Nat)
    (h : a.wf = true) :
    pAuthBody (bcsAuthBody a ++ rest) = some (a, rest) := by
  unfold ZkLoginAuthenticator.wf at h
  simp only [Bool.and_eq_true, decide_eq_true_eq] at h
  obtain ⟨⟨hi, he⟩, hs⟩ := h
  unfold pAuthBody bcsAuthBody
  simp only [List.append_assoc,
    pInputs_bcsInputs a.inputs _ hi,
    pU64_bcsU64 a.max_epoch _ he,
    pSimpleSignature_round a.signature _ hs]

theorem from_serialized_bytes_roundtrip (a : ZkLoginAuthenticator) (h : a.wf = true) :
    ZkLoginAuthenticator.from_serialized_bytes a.serialize_compact = .ok a := by
  have hbody := pAuthBody_bcsAuthBody a [] h
  rw [List.append_nil] at hbody
  unfold ZkLoginAuthenticator.serialize_compact ZkLoginAuthenticator.from_serialized_bytes
  simp only [SignatureScheme.toByte,
    show SignatureScheme.from_byte 5 = .ok .zkLogin from rfl, if_pos rfl, if_true, hbody]

theorem deserialize_readable_auth_roundtrip (a : ZkLoginAuthenticator)
    (h : a.wf = true) :
    ZkLoginAuthenticator.deserialize_readable a.serialize_readable = .ok a := by
  have hs : a.inputs.address_seed.wf = true := by
    unfold ZkLoginAuthenticator.wf ZkLoginInputs.wf at h
    simp only [Bool.and_eq_true] at h
    exact h.1.1.2
  unfold ZkLoginAuthenticator.serialize_readable ZkLoginAuthenticator.deserialize_readable
  simp only [seed_decimal_roundtrip a.inputs.address_seed hs]

theorem identifier_compact_roundtrip (v : ZkLoginPublicIdentifier)
    (h : v.wf = true) (hlen : v.iss.length ≤ 255) :
    ZkLoginPublicIdentifier.deserialize_compact v.serialize_compact = .ok v := by
  unfold ZkLoginPublicIdentifier.wf at h
  simp only [Bool.and_eq_true] at h
  obtain ⟨⟨_, hutf⟩, hseed⟩ := h
  have hseedlen : v.address_seed.bytes.length = 32 := by
    unfold AddressSeed.wf at hseed
    simp only [Bool.and_eq_true, beq_iff_eq] at hseed
    exact hseed.1
  have hmod : v.iss.length % 256 = v.iss.length := Nat.mod_eq_of_lt (by omega)
  unfold ZkLoginPublicIdentifier.serialize_compact ZkLoginPublicIdentifier.deserialize_compact
  rw [hmod]
  have hsg : sliceGet (v.iss.length :: (v.iss ++ v.address_seed.bytes)) 1
      (1 + v.iss.length) = some v.iss := by
    unfold sliceGet
    rw [if_pos ⟨by omega, by simp [hseedlen]; omega⟩]
    rw [show 1 + v.iss.length - 1 = v.iss.length from by omega]
    simp only [List.drop_succ_cons, List.drop_zero]
    rw [List.take_left]
  have hsf : sliceFrom (v.iss.length :: (v.iss ++ v.address_seed.bytes))
      (1 + v.iss.length) = some v.address_seed.bytes := by
    unfold sliceFrom
    rw [if_pos (by simp [hseedlen]; omega)]
    rw [Nat.add_comm 1 v.iss.length, List.drop_succ_cons]
    rw [List.drop_left]
  simp only [hsg, hutf, if_true, hsf, if_pos hseedlen]

theorem identifier_truncated_err (v : ZkLoginPublicIdentifier)
    (h : v.wf = true) (hlen : v.iss.length ≤ 255) :
    (ZkLoginPublicIdentifier.deserialize_compact v.serialize_compact.dropLast).isErr
      = true := by
  unfold ZkLoginPublicIdentifier.wf at h
  simp only [Bool.and_eq_true] at h
  obtain ⟨⟨_, hutf⟩, hseed⟩ := h
  have hseedlen : v.address_seed.bytes.length = 32 := by
    unfold AddressSeed.wf at hseed
    simp only [Bool.and_eq_true, beq_iff_eq] at hseed
    exact hseed.1
  have hne : v.address_seed.bytes ≠ [] := by
    intro hc; rw [hc] at hseedlen; simp at hseedlen
  have hmod : v.iss.length % 256 = v.iss.length := Nat.mod_eq_of_lt (by omega)
  have hT : v.serialize_compact.dropLast
      = v.iss.length :: (v.iss ++ v.address_seed.bytes.dropLast) := by
    unfold ZkLoginPublicIdentifier.serialize_compact
    rw [hmod]
    rw [show v.iss.length :: (v.iss ++ v.address_seed.bytes)
        = [v.iss.length] ++ (v.iss ++ v.address_seed.bytes) from rfl]
    rw [List.dropLast_append_of_ne_nil _ (by simp [hne])]
    rw [List.dropLast_append_of_ne_nil _ hne]
    rfl
  have hdl : v.address_seed.bytes.dropLast.length = 31 := by
    rw [List.length_dropLast, hseedlen]
  rw [hT]
  unfold ZkLoginPublicIdentifier.deserialize_compact
  have hsg : sliceGet (v.iss.length :: (v.iss ++ v.address_seed.bytes.dropLast)) 1
      (1 + v.iss.length) = some v.iss := by
    unfold sliceGet
    rw [if_pos ⟨by omega, by simp [hdl]; omega⟩]
    rw [show 1 + v.iss.length - 1 = v.iss.length from by omega]
    simp only [List.drop_succ_cons, List.drop_zero]
    rw [List.take_left]
  have hsf : sliceFrom (v.iss.length :: (v.iss ++ v.address_seed.bytes.dropLast))
      (1 + v.iss.length) = some v.address_seed.bytes.dropLast := by
    unfold sliceFrom
    rw [if_pos (by simp [hdl]; omega)]
    rw [Nat.add_comm 1 v.iss.length, List.drop_succ_cons]
    rw [List.drop_left]
  simp only [hsg, hutf, if_true, hsf,
    if_neg (by rw [hdl]; omega : ¬v.address_seed.bytes.dropLast.length = 32)]
  rfl

theorem head_dropWhile_false (p : Nat → Bool) :
    ∀ l : List Nat, ∀ d, (l.dropWhile p).head? = some d → p d = false := by
  intro l
  induction l with
  | nil => intro d hd; simp [List.dropWhile] at hd
  | cons x xs ih =>
    intro d hd
    by_cases hx : p x
    · rw [List.dropWhile_cons_of_pos hx] at hd
      exact ih d hd
    · rw [List.dropWhile_cons_of_neg hx] at hd
      simp only [List.head?_cons, Option.some.injEq] at hd
      subst hd
      exact Bool.not_eq_true _ ▸ (by simpa using hx)

theorem natToBE_seed_wf (n : Nat) : (AddressSeed.mk (natToBE 256 32 n)).wf = true := by
  unfold AddressSeed.wf
  simp only [Bool.and_eq_true, beq_iff_eq, List.all_eq_true]
  constructor
  · unfold natToBE
    rw [List.length_reverse]
    exact natToLE_length 256 32 n
  · intro b hb
    simp only [natToBE, List.mem_reverse] at hb
    simp only [decide_eq_true_eq]
    exact natToLE_lt 256 (by omega) 32 n b hb

theorem decimalBytes_no_leading_zero (m : Nat)
    (h2 : 2 ≤ (decimalBytes m).length) : (decimalBytes m).head? ≠ some 48 := by
  by_cases hm : m = 0
  · subst hm
    simp [decimalBytes, toDecimalDigits] at h2
  · unfold decimalBytes toDecimalDigits
    rw [if_neg hm, List.head?_map, List.head?_reverse]
    intro hc
    rcases hg : (toDigitsLE 10 m).getLast? with _ | d
    · rw [hg] at hc; simp at hc
    · rw [hg] at hc
      simp only [Option.map_some', Option.some.injEq] at hc
      have hd0 : d = 0 := by omega
      exact toDigitsLEAux_getLast_ne_zero 10 (by omega) m m hm (Nat.le_refl m) d hg hd0

theorem from_decimal_string_eq (s : List Nat) :
    AddressSeed.from_decimal_string s =
      if (!s.isEmpty && s.all isDigitByte) = true then
        (if ofDigitsBE 10 (s.map (fun b => b - 48)) < 2 ^ 256 then
          .ok ⟨natToBE 256 32 (ofDigitsBE 10 (s.map (fun b => b - 48)))⟩
        else .err "unable to parse radix10 encoded value: overflow")
      else .err "unable to parse radix10 encoded value" := by
  unfold AddressSeed.from_decimal_string parseDecimalBytes
  by_cases hc : (!s.isEmpty && s.all isDigitByte) = true
  · simp only [hc, if_true]
  · simp only [hc]
    rfl

theorem from_byte_ok_zkLogin (b : Nat)
    (h : SignatureScheme.from_byte b = .ok .zkLogin) : b = 5 := by
  unfold SignatureScheme.from_byte at h
  split_ifs at h <;> simp_all

/-- Claim C2 (code bug): both binary decoders index byte 0 of their input
without a bounds check; on the empty input this is an out-of-bounds slice
index, i.e. a Rust panic, not the structured error the claim requires. -/
theorem c2_empty_input_panics :
    ZkLoginAuthenticator.from_serialized_bytes [] = DecodeResult.panicked ∧
    ZkLoginPublicIdentifier.deserialize_compact [] = DecodeResult.panicked :=
  ⟨rfl, rfl⟩

/-- Claim C3 counterexample: for a concrete `ZkLoginInputs` value the
compact (BCS) encoding is not of the form the claim asserts — the
`address_seed` field is not the raw 32-byte big-endian buffer (the
encoding ends in the BCS decimal string instead). -/
theorem c3_counterexample :
    bcsInputs ⟨⟨[], [], []⟩, ⟨[], 0⟩, [], ⟨List.replicate 32 0⟩⟩ ≠
    bcsInputsRawSeedSpec ⟨⟨[], [], []⟩, ⟨[], 0⟩, [], ⟨List.replicate 32 0⟩⟩ := by
  decide

/-- Claim C3 (amended): inside the compact encoding of `ZkLoginInputs` the
`address_seed` is encoded as the BCS string of its canonical decimal
rendering — the same decimal string the human-readable path uses — and the
raw 32-byte padded buffer appears only in the compact encoding of
`ZkLoginPublicIdentifier`. -/
theorem c3_seed_encoding :
    (∀ i : ZkLoginInputs,
      bcsInputs i = bcsProof i.proof_points ++ bcsClaim i.iss_base64_details ++
        bcsString i.header_base64 ++ bcsString i.address_seed.to_decimal_string)
    ∧ (∀ v : ZkLoginPublicIdentifier,
      v.serialize_compact = (v.iss.length % 256) :: (v.iss ++ v.address_seed.padded))
    ∧ (∀ a : ZkLoginAuthenticator,
      a.serialize_readable.inputs.address_seed = a.inputs.address_seed.to_decimal_string) :=
  ⟨fun _ => rfl, fun _ => rfl, fun _ => rfl⟩

/-- Claim C4: for every 256-bit value, rendering the seed holding it as a
decimal string parses back to the same seed, the rendered string is the
canonical decimal form of the value itself, and it has no leading zero
digit (a first byte of ASCII 0 only for the one-digit string of zero). -/
theorem c4_decimal_roundtrip (n : Nat) (h : n < 2 ^ 256) :
    AddressSeed.from_decimal_string
        (AddressSeed.to_decimal_string ⟨natToBE 256 32 n⟩) = .ok ⟨natToBE 256 32 n⟩
    ∧ AddressSeed.to_decimal_string ⟨natToBE 256 32 n⟩ = decimalBytes n
    ∧ (2 ≤ (AddressSeed.to_decimal_string ⟨natToBE 256 32 n⟩).length →
       (AddressSeed.to_decimal_string ⟨natToBE 256 32 n⟩).head? ≠ some 48) := by
  have hvalue : AddressSeed.to_decimal_string ⟨natToBE 256 32 n⟩ = decimalBytes n := by
    unfold AddressSeed.to_decimal_string
    rw [beToNat_natToBE 32 n (by norm_num at h ⊢; omega)]
  refine ⟨seed_decimal_roundtrip _ (natToBE_seed_wf n), hvalue, ?_⟩
  rw [hvalue]
  exact decimalBytes_no_leading_zero n

/-- Witness for C4 at the concrete value 12345. -/
theorem c4_witness :
    (12345 : Nat) < 2 ^ 256 ∧
    AddressSeed.from_decimal_string
        (AddressSeed.to_decimal_string ⟨natToBE 256 32 12345⟩)
      = .ok ⟨natToBE 256 32 12345⟩ :=
  ⟨by norm_num, (c4_decimal_roundtrip 12345 (by norm_num)).1⟩

/-- Claim C5: the authenticator-specific binary decoder errors on any
input whose leading byte is a valid scheme tag other than `ZkLogin`, and a
successful decode forces the leading byte to be the `ZkLogin` tag. -/
theorem c5_scheme_tag_enforced :
    (∀ (bytes : List Nat) (b : Nat) (s : SignatureScheme),
      bytes.head? = some b →
      SignatureScheme.from_byte b = .ok s →
      s ≠ SignatureScheme.zkLogin →
      (ZkLoginAuthenticator.from_serialized_bytes bytes).isErr = true)
    ∧ (∀ (bytes : List Nat) (a : ZkLoginAuthenticator),
      ZkLoginAuthenticator.from_serialized_bytes bytes = .ok a →
      bytes.head? = some SignatureScheme.zkLogin.toByte) := by
  constructor
  · intro bytes b s hh hfb hs
    cases bytes with
    | nil => simp at hh
    | cons b0 rest =>
      simp only [List.head?_cons, Option.some.injEq] at hh
      subst hh
      unfold ZkLoginAuthenticator.from_serialized_bytes
      simp only [hfb, if_neg hs]
      rfl
  · intro bytes a hok
    cases bytes with
    | nil => simp [ZkLoginAuthenticator.from_serialized_bytes] at hok
    | cons b0 rest =>
      unfold ZkLoginAuthenticator.from_serialized_bytes at hok
      simp only [] at hok
      cases hfb : SignatureScheme.from_byte b0 with
      | err e => rw [hfb] at hok; simp at hok
      | ok flag =>
        rw [hfb] at hok
        simp only [] at hok
        by_cases hz : flag = SignatureScheme.zkLogin
        · subst hz
          have hb5 := from_byte_ok_zkLogin b0 hfb
          subst hb5
          rfl
        · rw [if_neg hz] at hok
          simp at hok

/-- Witness for C5 at the concrete input starting with the Multisig tag. -/
theorem c5_witness :
    [3, 7].head? = some 3 ∧
    SignatureScheme.from_byte 3 = .ok SignatureScheme.multisig ∧
    (ZkLoginAuthenticator.from_serialized_bytes [3, 7]).isErr = true :=
  ⟨rfl, rfl,
    c5_scheme_tag_enforced.1 [3, 7] 3 SignatureScheme.multisig rfl rfl (by decide)⟩

/-- Claim C7: the decimal parser errors exactly when the input is empty,
contains a non-digit byte, or denotes a value of at least `2 ^ 256`, and a
successful parse stores exactly the denoted value (no truncation); the
model is a total function, so no input aborts. -/
theorem c7_from_decimal_string_errors :
    (∀ s : List Nat,
      (AddressSeed.from_decimal_string s).isErr = true ↔
        (s = [] ∨ ¬s.all isDigitByte = true ∨
          2 ^ 256 ≤ ofDigitsBE 10 (s.map (fun b => b - 48))))
    ∧ (∀ (s : List Nat) (a : AddressSeed),
      AddressSeed.from_decimal_string s = .ok a →
      beToNat a.bytes = ofDigitsBE 10 (s.map (fun b => b - 48))) := by
  constructor
  · intro s
    rw [from_decimal_string_eq]
    by_cases he : s = []
    · simp [he, ParseResult.isErr]
    · by_cases ha : s.all isDigitByte = true
      · rw [if_pos (by simp [ha, List.isEmpty_iff, he])]
        by_cases hv : ofDigitsBE 10 (s.map (fun b => b - 48)) < 2 ^ 256
        · rw [if_pos hv]
          constructor
          · intro hfalse
            exact absurd hfalse (by simp [ParseResult.isErr])
          · intro hor
            rcases hor with h1 | h2 | h3
            · exact absurd h1 he
            · exact absurd ha h2
            · exact absurd h3 (by omega)
        · rw [if_neg hv]
          constructor
          · intro _
            exact Or.inr (Or.inr (by omega))
          · intro _
            rfl
      · rw [if_neg (by simp [ha])]
        constructor
        · intro _
          exact Or.inr (Or.inl ha)
        · intro _
          rfl
  · intro s a hok
    rw [from_decimal_string_eq] at hok
    by_cases hc : (!s.isEmpty && s.all isDigitByte) = true
    · rw [if_pos hc] at hok
      by_cases hv : ofDigitsBE 10 (s.map (fun b => b - 48)) < 2 ^ 256
      · rw [if_pos hv] at hok
        have ha : a = ⟨natToBE 256 32 (ofDigitsBE 10 (s.map (fun b => b - 48)))⟩ := by
          cases hok
          rfl
        rw [ha]
        exact beToNat_natToBE 32 _ (by norm_num at hv ⊢; omega)
      · rw [if_neg hv] at hok
        simp at hok
    · rw [if_neg hc] at hok
      simp at hok

/-- Witness for C7: a successful parse of the one-digit string for 5, and
the rejected non-digit input "12x3". -/
theorem c7_witness :
    AddressSeed.from_decimal_string [53] = .ok ⟨natToBE 256 32 5⟩ ∧
    beToNat (AddressSeed.mk (natToBE 256 32 5)).bytes
      = ofDigitsBE 10 ([53].map (fun b => b - 48)) ∧
    (AddressSeed.from_decimal_string [49, 50, 120, 51]).isErr = true :=
  ⟨by decide,
   c7_from_decimal_string_errors.2 [53] ⟨natToBE 256 32 5⟩ (by decide),
   (c7_from_decimal_string_errors.1 [49, 50, 120, 51]).mpr (by decide)⟩

/-- Claim C8: the all-zero seed has `unpadded` equal to the one-byte slice
holding zero, of length exactly one. -/
theorem c8_zero_unpadded :
    AddressSeed.unpadded ⟨List.replicate 32 0⟩ = [0] ∧
    (AddressSeed.unpadded ⟨List.replicate 32 0⟩).length = 1 := by
  decide

/-- Claim C9: a seed whose first byte is zero and whose other 31 bytes are
one has `unpadded` of length 31 with every byte one. -/
theorem c9_leading_zero_unpadded :
    AddressSeed.unpadded ⟨0 :: List.replicate 31 1⟩ = List.replicate 31 1 ∧
    (AddressSeed.unpadded ⟨0 :: List.replicate 31 1⟩).length = 31 := by
  decide

/-- Claim C1 counterexample: a `ZkLoginPublicIdentifier` whose `iss` is
256 bytes long does not survive the compact round trip — the `as u8` cast
of the length wraps to 0 and decoding fails instead of returning the
original value. -/
theorem c1_counterexample :
    ZkLoginPublicIdentifier.deserialize_compact
        (ZkLoginPublicIdentifier.serialize_compact
          ⟨List.replicate 256 97, ⟨List.replicate 32 0⟩⟩) ≠
      .ok ⟨List.replicate 256 97, ⟨List.replicate 32 0⟩⟩ := by
  decide

/-- Claim C1 (amended): both serialization paths of
`ZkLoginPublicIdentifier` (provided its `iss` is at most 255 bytes),
`ZkLoginAuthenticator` and `AddressSeed` round-trip to the original value,
so the two decoded results agree. -/
theorem c1_dual_path_roundtrip :
    (∀ v : ZkLoginPublicIdentifier, v.wf = true → v.iss.length ≤ 255 →
      ZkLoginPublicIdentifier.deserialize_compact v.serialize_compact = .ok v ∧
      ZkLoginPublicIdentifier.deserialize_readable v.serialize_readable = .ok v)
    ∧ (∀ a : ZkLoginAuthenticator, a.wf = true →
      ZkLoginAuthenticator.from_serialized_bytes a.serialize_compact = .ok a ∧
      ZkLoginAuthenticator.deserialize_readable a.serialize_readable = .ok a)
    ∧ (∀ s : AddressSeed, s.wf = true →
      pAddressSeed (bcsAddressSeed s) = some (s, []) ∧
      AddressSeed.from_decimal_string s.to_decimal_string = .ok s) := by
  refine ⟨fun v hw hl => ⟨identifier_compact_roundtrip v hw hl, ?_⟩,
    fun a hw => ⟨from_serialized_bytes_roundtrip a hw,
      deserialize_readable_auth_roundtrip a hw⟩,
    fun s hw => ⟨?_, seed_decimal_roundtrip s hw⟩⟩
  · have hs : v.address_seed.wf = true := by
      unfold ZkLoginPublicIdentifier.wf at hw
      simp only [Bool.and_eq_true] at hw
      exact hw.2
    unfold ZkLoginPublicIdentifier.serialize_readable
      ZkLoginPublicIdentifier.deserialize_readable
    simp only [seed_decimal_roundtrip v.address_seed hs]
  · have := pAddressSeed_bcsAddressSeed s [] hw
    rwa [List.append_nil] at this

/-- Witness for C1 at concrete small values of all three types. -/
theorem c1_witness :
    ((⟨[97], ⟨List.replicate 32 0⟩⟩ : ZkLoginPublicIdentifier).wf = true ∧
      ZkLoginPublicIdentifier.deserialize_compact
          (ZkLoginPublicIdentifier.serialize_compact ⟨[97], ⟨List.replicate 32 0⟩⟩)
        = .ok ⟨[97], ⟨List.replicate 32 0⟩⟩)
    ∧ ((⟨⟨⟨[[49]], [[[50]]], [[51]]⟩, ⟨[52], 3⟩, [53], ⟨List.replicate 32 0⟩⟩, 7,
          .ed25519 (List.replicate 64 1) (List.replicate 32 2)⟩ :
            ZkLoginAuthenticator).wf = true ∧
      ZkLoginAuthenticator.from_serialized_bytes
          (ZkLoginAuthenticator.serialize_compact
            ⟨⟨⟨[[49]], [[[50]]], [[51]]⟩, ⟨[52], 3⟩, [53], ⟨List.replicate 32 0⟩⟩, 7,
              .ed25519 (List.replicate 64 1) (List.replicate 32 2)⟩)
        = .ok ⟨⟨⟨[[49]], [[[50]]], [[51]]⟩, ⟨[52], 3⟩, [53], ⟨List.replicate 32 0⟩⟩, 7,
            .ed25519 (List.replicate 64 1) (List.replicate 32 2)⟩)
    ∧ ((⟨List.replicate 32 0⟩ : AddressSeed).wf = true ∧
      AddressSeed.from_decimal_string
          (AddressSeed.to_decimal_string ⟨List.replicate 32 0⟩)
        = .ok ⟨List.replicate 32 0⟩) :=
  ⟨⟨by decide, (c1_dual_path_roundtrip.1 _ (by decide) (by decide)).1⟩,
   ⟨by decide, (c1_dual_path_roundtrip.2.1 _ (by decide)).1⟩,
   ⟨by decide, (c1_dual_path_roundtrip.2.2 _ (by decide)).2⟩⟩

/-- Claim C6 counterexample: for an identifier whose `iss` is 300 bytes
long, the compact encoding does not start with a byte holding the issuer
byte length (the `as u8` cast wraps 300 to 44), so the claimed format and
round trip fail. -/
theorem c6_counterexample :
    ¬(ZkLoginPublicIdentifier.serialize_compact
          ⟨List.replicate 300 98, ⟨List.replicate 32 1⟩⟩ =
        300 :: (List.replicate 300 98 ++ List.replicate 32 1) ∧
      ZkLoginPublicIdentifier.deserialize_compact
          (ZkLoginPublicIdentifier.serialize_compact
            ⟨List.replicate 300 98, ⟨List.replicate 32 1⟩⟩) =
        .ok ⟨List.replicate 300 98, ⟨List.replicate 32 1⟩⟩) := by
  decide

/-- Claim C6 (amended): for an identifier whose `iss` is at most 255
bytes, the compact encoding is exactly the length byte, the issuer bytes
and the 32-byte padded seed; decoding it reproduces the value and decoding
it truncated by one byte fails with an error. -/
theorem c6_identifier_codec (v : ZkLoginPublicIdentifier)
    (h : v.wf = true) (hlen : v.iss.length ≤ 255) :
    v.serialize_compact = v.iss.length :: (v.iss ++ v.address_seed.padded)
    ∧ ZkLoginPublicIdentifier.deserialize_compact v.serialize_compact = .ok v
    ∧ (ZkLoginPublicIdentifier.deserialize_compact
        v.serialize_compact.dropLast).isErr = true := by
  refine ⟨?_, identifier_compact_roundtrip v h hlen,
    identifier_truncated_err v h hlen⟩
  unfold ZkLoginPublicIdentifier.serialize_compact AddressSeed.padded
  rw [Nat.mod_eq_of_lt (by omega)]

/-- Witness for C6 at the spec's example identifier
(iss "https://accounts.example.com", all-zero seed). -/
theorem c6_witness :
    (⟨[104, 116, 116, 112, 115, 58, 47, 47, 97, 99, 99, 111, 117, 110, 116, 115,
        46, 101, 120, 97, 109, 112, 108, 101, 46, 99, 111, 109],
      ⟨List.replicate 32 0⟩⟩ : ZkLoginPublicIdentifier).wf = true ∧
    ZkLoginPublicIdentifier.deserialize_compact
        (ZkLoginPublicIdentifier.serialize_compact
          ⟨[104, 116, 116, 112, 115, 58, 47, 47, 97, 99, 99, 111, 117, 110, 116, 115,
              46, 101, 120, 97, 109, 112, 108, 101, 46, 99, 111, 109],
            ⟨List.replicate 32 0⟩⟩)
      = .ok ⟨[104, 116, 116, 112, 115, 58, 47, 47, 97, 99, 99, 111, 117, 110, 116, 115,
              46, 101, 120, 97, 109, 112, 108, 101, 46, 99, 111, 109],
            ⟨List.replicate 32 0⟩⟩ ∧
    (ZkLoginPublicIdentifier.deserialize_compact
        (ZkLoginPublicIdentifier.serialize_compact
          ⟨[104, 116, 116, 112, 115, 58, 47, 47, 97, 99, 99, 111, 117, 110, 116, 115,
              46, 101, 120, 97, 109, 112, 108, 101, 46, 99, 111, 109],
            ⟨List.replicate 32 0⟩⟩).dropLast).isErr = true :=
  ⟨by decide,
   (c6_identifier_codec _ (by decide) (by decide)).2.1,
   (c6_identifier_codec _ (by decide) (by decide)).2.2⟩

/-- Claim C10: for every 32-byte seed, `padded` is the full buffer,
`unpadded` is a non-empty suffix of it preceded only by zero bytes, all
bytes zero gives the single byte 0, and otherwise the first unpadded byte
is nonzero. -/
theorem c10_padded_unpadded_invariants (s : AddressSeed)
    (h : s.bytes.length = 32) :
    s.padded = s.bytes
    ∧ s.padded.length = 32
    ∧ s.unpadded ≠ []
    ∧ (∃ k, s.padded = List.replicate k 0 ++ s.unpadded)
    ∧ ((∀ b ∈ s.bytes, b = 0) → s.unpadded = [0])
    ∧ ((¬∀ b ∈ s.bytes, b = 0) → ∀ d, s.unpadded.head? = some d → d ≠ 0) := by
  by_cases hall : ∀ b ∈ s.bytes, b = 0
  · have hrep : s.bytes = List.replicate 32 0 := by
      have := List.eq_replicate_of_mem hall
      rwa [h] at this
    have hdw : s.bytes.dropWhile (fun b => b == 0) = [] :=
      List.dropWhile_eq_nil_iff.mpr (fun a ha => by simp [hall a ha])
    have hunp : s.unpadded = [0] := by
      unfold AddressSeed.unpadded
      rw [hdw]
      simp [hrep]
    refine ⟨rfl, h, by simp [hunp], ⟨31, ?_⟩, fun _ => hunp, fun hc => absurd hall hc⟩
    unfold AddressSeed.padded
    rw [hrep, hunp]
    exact List.replicate_succ' 31 0
  · have hdw : s.bytes.dropWhile (fun b => b == 0) ≠ [] := by
      intro hc
      exact hall (fun a ha => by simpa using List.dropWhile_eq_nil_iff.mp hc a ha)
    have hunp : s.unpadded = s.bytes.dropWhile (fun b => b == 0) := by
      unfold AddressSeed.unpadded
      rw [if_neg (by simp [List.isEmpty_iff, hdw])]
    refine ⟨rfl, h, by rw [hunp]; exact hdw,
      ⟨(s.bytes.takeWhile (fun b => b == 0)).length, ?_⟩,
      fun hz => absurd hz hall, ?_⟩
    · unfold AddressSeed.padded
      rw [hunp]
      have htw : s.bytes.takeWhile (fun b => b == 0) =
          List.replicate (s.bytes.takeWhile (fun b => b == 0)).length 0 := by
        apply List.eq_replicate_of_mem
        intro b hb
        simpa using List.mem_takeWhile_imp hb
      conv_lhs => rw [← List.takeWhile_append_dropWhile (fun b => b == 0) s.bytes]
      rw [← htw]
    · intro _ d hd
      rw [hunp] at hd
      have := head_dropWhile_false (fun b => b == 0) s.bytes d hd
      simpa using this

/-- Witness for C10 at a concrete seed with 30 leading zero bytes. -/
theorem c10_witness :
    (⟨List.replicate 30 0 ++ [7, 9]⟩ : AddressSeed).bytes.length = 32 ∧
    (⟨List.replicate 30 0 ++ [7, 9]⟩ : AddressSeed).unpadded ≠ [] :=
  ⟨by decide, (c10_padded_unpadded_invariants _ (by decide)).2.2.1⟩

end Sui
